import Mathlib

set_option maxRecDepth 100000
set_option maxHeartbeats 1000000

/-!
Verification of the ScreenshotRenamer naming and rename logic
(`src/screenshot_renamer/screenshot.py`, class `RenamerHandler`).

Strings are modelled as `List Char` (Python `str`), file contents as
`List Nat` (bytes, each < 256), and the filesystem as a partial map from
paths to file entries.  Library calls made by the source (`re.match`,
`os.path.basename` / `dirname` / `join` / `splitext`, `hashlib.sha256`,
`datetime.fromtimestamp` with the UTC timezone, `str.format`) are embedded
by executable Lean definitions of the corresponding documented semantics.
All definitions use structural recursion so that they evaluate inside the
kernel (`decide` / `rfl`).
-/

/-! ### Character classes used by the regular expression `VALID_FN` -/

/-- Character class `[0-9]` of the regex. -/
def isDigitC (c : Char) : Bool := '0' ≤ c && c ≤ '9'

/-- Character class `[0-9A-Fa-f]` of the regex. -/
def isHexC (c : Char) : Bool :=
  isDigitC c || ('A' ≤ c && c ≤ 'F') || ('a' ≤ c && c ≤ 'f')

/-- Python `.` (without DOTALL): any character except a newline. -/
def notNL (c : Char) : Bool := c != '\n'

/-! ### A small regular-expression engine

The pattern `VALID_FN` is a plain concatenation of literals, character
classes and one trailing `.*`, so a token list suffices to embed it. -/

/-- One regex token: a literal character, a character class, or a starred
character class (`p*`). -/
inductive RTok where
  | lit : Char → RTok
  | cls : (Char → Bool) → RTok
  | starCls : (Char → Bool) → RTok

/-- Matching of `p*` followed by a continuation `k`: try the continuation
at every position reachable by consuming characters satisfying `p`. -/
def starLoop (p : Char → Bool) (k : List Char → Bool) : List Char → Bool
  | [] => k []
  | x :: xs => k (x :: xs) || (p x && starLoop p k xs)

/-- Unanchored-at-the-end matching, as Python `re.Pattern.match`: the
token list must match some prefix of the input. -/
def reMatch : List RTok → List Char → Bool
  | [], _ => true
  | RTok.lit _ :: _, [] => false
  | RTok.lit c :: ts, x :: xs => (x == c) && reMatch ts xs
  | RTok.cls _ :: _, [] => false
  | RTok.cls p :: ts, x :: xs => p x && reMatch ts xs
  | RTok.starCls p :: ts, cs => starLoop p (fun ys => reMatch ts ys) cs

/-- Literal string as a token sequence. -/
def litToks (s : String) : List RTok := s.data.map RTok.lit

/-- The class constant `RenamerHandler.VALID_FN`, the compiled regex
`Screenshot-(?P<datetime>[0-9]x8-[0-9]x6)-(?P<checksum>[0-9A-Fa-f]x8)\..*`
(with x8 / x6 standing for the brace repetition counts)
(groups do not affect matching and are dropped). -/
def VALID_FN : List RTok :=
  litToks "Screenshot-" ++
    (List.replicate 8 (RTok.cls isDigitC) ++
      (litToks "-" ++
        (List.replicate 6 (RTok.cls isDigitC) ++
          (litToks "-" ++
            (List.replicate 8 (RTok.cls isHexC) ++
              (litToks "." ++ [RTok.starCls notNL]))))))

/-! ### Path manipulation (`posixpath`) -/

/-- The suffix of `p` after its last `'/'`; `os.path.basename`. -/
def basename (p : List Char) : List Char :=
  (p.reverse.takeWhile (fun c => c != '/')).reverse

/-- Index of the last `'.'` in the list, if any (`str.rfind('.')`). -/
def lastDotIdx : List Char → Option Nat
  | [] => none
  | c :: cs =>
    match lastDotIdx cs with
    | some i => some (i + 1)
    | none => if c = '.' then some 0 else none

/-- Extension part of `os.path.splitext` applied to a basename: the
suffix from the last dot, provided some earlier character is not a dot
(CPython `genericpath._splitext`).  Empty when there is no extension. -/
def splitextExt (name : List Char) : List Char :=
  (lastDotIdx name).elim []
    (fun i => if (name.take i).any (fun c => c != '.') then name.drop i else [])

/-- `RenamerHandler.needs_rename`: true iff `VALID_FN` does not match the
basename of the path. -/
def needs_rename (path : List Char) : Bool :=
  !(reMatch VALID_FN (basename path))

/-- Modelled from the spec's words (§4.1 / §8): a base name is canonical
when it is the prefix `Screenshot-`, 8 digits, `-`, 6 digits, `-`, 8 hex
digits, a literal dot, and any extension. -/
def canonicalPattern (name : List Char) : Prop :=
  ∃ d t h ext,
    name =
      "Screenshot-".data ++
        (d ++ ("-".data ++ (t ++ ("-".data ++ (h ++ (".".data ++ ext)))))) ∧
    d.length = 8 ∧ (∀ c ∈ d, isDigitC c = true) ∧
    t.length = 6 ∧ (∀ c ∈ t, isDigitC c = true) ∧
    h.length = 8 ∧ (∀ c ∈ h, isHexC c = true)

/-! ### Further path helpers (`posixpath.dirname`, `posixpath.join`) -/

/-- The prefix of `p` up to and including its last `'/'`, then with the
trailing slashes stripped unless the prefix is all slashes;
`os.path.dirname`. -/
def dirname (p : List Char) : List Char :=
  let head := (p.reverse.dropWhile (fun c => c != '/')).reverse
  if head.all (fun c => c == '/') then head
  else (head.reverse.dropWhile (fun c => c == '/')).reverse

/-- Two-argument `os.path.join` (POSIX rules). -/
def joinPath (head tail : List Char) : List Char :=
  if tail.head? = some '/' then tail
  else if head = [] ∨ head.getLast? = some '/' then head ++ tail
  else head ++ '/' :: tail

/-! ### Python string helpers used by `handle_event` -/

/-- ASCII `str.lower` (the configured extensions are ASCII). -/
def pyLower (c : Char) : Char :=
  if 'A' ≤ c ∧ c ≤ 'Z' then Char.ofNat (c.toNat + 32) else c

/-- Python whitespace stripped by `str.strip()` (ASCII part). -/
def isSpaceC (c : Char) : Bool :=
  c == ' ' || c == '\t' || c == '\n' || c == '\r' || c == '\x0b' || c == '\x0c'

/-- Python `str.strip()`. -/
def stripWS (s : List Char) : List Char :=
  ((s.dropWhile isSpaceC).reverse.dropWhile isSpaceC).reverse

/-- The expression `ext.lower().strip()` from `handle_event`. -/
def pyExtNorm (s : List Char) : List Char := stripWS (s.map pyLower)

/-! ### Timestamp formatting

The source computes
`datetime.fromtimestamp(mtime, tz=pytz.timezone("UTC")).strftime('%Y%m%d-%H%M%S')`.
We model `mtime` as an integer number of epoch seconds and embed the
documented semantics of the conversion: split the timestamp into days and
second-of-day, convert the day count to a proleptic-Gregorian civil date,
and zero-pad the fields (`%Y` to four digits as documented, `%m`, `%d`,
`%H`, `%M`, `%S` to two).  `datetime` only represents years 1..9999;
outside that range `fromtimestamp` raises, modelled by `none`. -/

/-- Gregorian leap-year rule. -/
def isLeap (y : Nat) : Bool := (y % 4 == 0 && y % 100 != 0) || y % 400 == 0

/-- Number of days in year `y`. -/
def daysInYear (y : Nat) : Nat := if isLeap y then 366 else 365

/-- Peel whole years off a day count (days since 0001-01-01), starting at
year `y`.  Fuel bounds the number of peeled years; 10000 covers the whole
representable `datetime` range. -/
def civilLoop : Nat → Nat → Nat → Nat × Nat
  | 0, y, n => (y, n)
  | f + 1, y, n =>
    if n < daysInYear y then (y, n) else civilLoop f (y + 1) (n - daysInYear y)

/-- Month lengths, January to December. -/
def monthLens (leap : Bool) : List Nat :=
  [31, if leap then 29 else 28, 31, 30, 31, 30, 31, 31, 30, 31, 30, 31]

/-- Convert a day-of-year (0-based) to month and day (1-based). -/
def mdLoop : Nat → List Nat → Nat → Nat × Nat
  | m, [], doy => (m, doy + 1)
  | m, ml :: rest, doy =>
    if doy < ml then (m, doy + 1) else mdLoop (m + 1) rest (doy - ml)

/-- Decimal digit character of `n % 10`. -/
def decDigit (n : Nat) : Char := Char.ofNat (48 + n % 10)

/-- Two-digit zero-padded decimal field (all `strftime` fields involved
are below 100 on the `datetime` type's invariant). -/
def pad2 (n : Nat) : List Char := [decDigit (n / 10), decDigit n]

/-- Four-digit zero-padded year (documented `%Y` behaviour; the year is
guarded to 1..9999 below). -/
def pad4 (n : Nat) : List Char :=
  [decDigit (n / 1000), decDigit (n / 100), decDigit (n / 10), decDigit n]

/-- Day count from 0001-01-01 to 1970-01-01 (`date(1970,1,1).toordinal()`
minus one). -/
def epochOrdinal : Nat := 719162

/-- `RenamerHandler.file_datetime` as a function of the file's
modification time in epoch seconds: the UTC civil time formatted as
`YYYYMMDD-HHMMSS`, or `none` when `datetime.fromtimestamp` raises
(year outside 1..9999). -/
def file_datetime (mtime : Int) : Option (List Char) :=
  let days : Int := Int.ediv mtime 86400
  let sod : Nat := (Int.emod mtime 86400).toNat
  let total : Int := days + epochOrdinal
  if total < 0 then none
  else
    let yd := civilLoop 10000 1 total.toNat
    if 9999 < yd.1 then none
    else
      let md := mdLoop 1 (monthLens (isLeap yd.1)) yd.2
      some (pad4 yd.1 ++ pad2 md.1 ++ pad2 md.2 ++ '-' ::
        (pad2 (sod / 3600) ++ pad2 (sod / 60 % 60) ++ pad2 (sod % 60)))

/-! ### SHA-256 (`hashlib.sha256(...).hexdigest()`), FIPS 180-4

Words are natural numbers reduced modulo `2 ^ 32`. -/

/-- Truncate to a 32-bit word. -/
def w32 (n : Nat) : Nat := n % 4294967296

/-- Rotate a 32-bit word right by `n` bit positions. -/
def rotWord (n x : Nat) : Nat := w32 ((x >>> n) ||| (x <<< (32 - n)))

/-- The upper-sigma function acting on the `a` column of the state. -/
def sumA (x : Nat) : Nat := rotWord 2 x ^^^ rotWord 13 x ^^^ rotWord 22 x

/-- The upper-sigma function acting on the `e` column of the state. -/
def sumE (x : Nat) : Nat := rotWord 6 x ^^^ rotWord 11 x ^^^ rotWord 25 x

/-- The lower-sigma function applied to `w[i-15]` in the schedule. -/
def sigW0 (x : Nat) : Nat := rotWord 7 x ^^^ rotWord 18 x ^^^ (x >>> 3)

/-- The lower-sigma function applied to `w[i-2]` in the schedule. -/
def sigW1 (x : Nat) : Nat := rotWord 17 x ^^^ rotWord 19 x ^^^ (x >>> 10)

/-- The choice function of the compression round. -/
def chF (x y z : Nat) : Nat := (x &&& y) ^^^ ((x ^^^ 4294967295) &&& z)

/-- The majority function of the compression round. -/
def majF (x y z : Nat) : Nat := (x &&& y) ^^^ (x &&& z) ^^^ (y &&& z)

/-- The first sixty-four primes; their roots generate the SHA-256
constants. -/
def primes64 : List Nat :=
  [2, 3, 5, 7, 11, 13, 17, 19, 23, 29, 31, 37, 41, 43, 47, 53, 59, 61, 67,
   71, 73, 79, 83, 89, 97, 101, 103, 107, 109, 113, 127, 131, 137, 139, 149,
   151, 157, 163, 167, 173, 179, 181, 191, 193, 197, 199, 211, 223, 227, 229,
   233, 239, 241, 251, 257, 263, 269, 271, 277, 281, 283, 293, 307, 311]

/-- Integer square root by a descending search over bit positions. -/
def sqrtBits : Nat → Nat → Nat → Nat
  | 0, _, acc => acc
  | b + 1, n, acc =>
    let t := acc + 2 ^ b
    if t * t ≤ n then sqrtBits b n t else sqrtBits b n acc

/-- Integer cube root by a descending search over bit positions. -/
def cbrtBits : Nat → Nat → Nat → Nat
  | 0, _, acc => acc
  | b + 1, n, acc =>
    let t := acc + 2 ^ b
    if t * t * t ≤ n then cbrtBits b n t else cbrtBits b n acc

/-- One round constant: the first 32 fractional bits of the cube root of
a prime. -/
def kWord (p : Nat) : Nat := w32 (cbrtBits 40 (p * 2 ^ 96) 0)

/-- One initial-state word: the first 32 fractional bits of the square
root of a prime. -/
def hWord (p : Nat) : Nat := w32 (sqrtBits 40 (p * 2 ^ 64) 0)

/-- The 64 SHA-256 round constants. -/
def K256 : List Nat := primes64.map kWord

/-- The initial hash state. -/
def H256 : List Nat := (primes64.take 8).map hWord

/-- Big-endian 8-byte encoding of the bit length. -/
def be64 (n : Nat) : List Nat :=
  [n >>> 56 &&& 255, n >>> 48 &&& 255, n >>> 40 &&& 255, n >>> 32 &&& 255,
   n >>> 24 &&& 255, n >>> 16 &&& 255, n >>> 8 &&& 255, n &&& 255]

/-- SHA-256 message padding: append `0x80`, zeros to 56 mod 64, then the
bit length. -/
def padMessage (msg : List Nat) : List Nat :=
  msg ++ 128 :: (List.replicate ((120 - (msg.length + 1) % 64) % 64) 0
    ++ be64 (8 * msg.length))

/-- Split the padded message into 64-byte blocks (`cur` is the reversed
current partial block, `n` its length). -/
def chunksGo (cur : List Nat) (n : Nat) : List Nat → List (List Nat)
  | [] => if cur = [] then [] else [cur.reverse]
  | b :: rest =>
    if n = 63 then (b :: cur).reverse :: chunksGo [] 0 rest
    else chunksGo (b :: cur) (n + 1) rest

/-- 64-byte blocks of a list. -/
def chunks64 (l : List Nat) : List (List Nat) := chunksGo [] 0 l

/-- Big-endian 32-bit words of a 64-byte block. -/
def wordsOfBlock : List Nat → List Nat
  | b0 :: b1 :: b2 :: b3 :: rest =>
    (b0 <<< 24 ||| b1 <<< 16 ||| b2 <<< 8 ||| b3) :: wordsOfBlock rest
  | _ => []

/-- Message-schedule extension: append `fuel` further words. -/
def extendW : Nat → List Nat → List Nat
  | 0, w => w
  | f + 1, w =>
    let n := w.length
    extendW f (w ++ [w32 (sigW1 (w.getD (n - 2) 0) + w.getD (n - 7) 0 +
      sigW0 (w.getD (n - 15) 0) + w.getD (n - 16) 0)])

/-- One compression round. -/
def sha256round (st : Nat × Nat × Nat × Nat × Nat × Nat × Nat × Nat)
    (kw : Nat × Nat) : Nat × Nat × Nat × Nat × Nat × Nat × Nat × Nat :=
  match st, kw with
  | (a, b, c, d, e, f, g, h), (k, w) =>
    let t1 := w32 (h + sumE e + chF e f g + k + w)
    let t2 := w32 (sumA a + majF a b c)
    (w32 (t1 + t2), a, b, c, w32 (d + t1), e, f, g)

/-- Process one 64-byte block. -/
def processBlock (hs : List Nat) (block : List Nat) : List Nat :=
  let ws := extendW 48 (wordsOfBlock block)
  let st := (K256.zip ws).foldl sha256round
    (hs.getD 0 0, hs.getD 1 0, hs.getD 2 0, hs.getD 3 0,
     hs.getD 4 0, hs.getD 5 0, hs.getD 6 0, hs.getD 7 0)
  List.zipWith (fun x y => w32 (x + y)) hs
    [st.1, st.2.1, st.2.2.1, st.2.2.2.1, st.2.2.2.2.1, st.2.2.2.2.2.1,
     st.2.2.2.2.2.2.1, st.2.2.2.2.2.2.2]

/-- The eight 32-bit words of the SHA-256 digest of a byte string. -/
def sha256words (msg : List Nat) : List Nat :=
  (chunks64 (padMessage msg)).foldl processBlock H256

/-- Lowercase hex digit of `n % 16`. -/
def hexDigitC (n : Nat) : Char :=
  if n % 16 < 10 then Char.ofNat (48 + n % 16) else Char.ofNat (87 + n % 16)

/-- Eight lowercase hex characters of a 32-bit word. -/
def hex8 (n : Nat) : List Char :=
  [hexDigitC (n >>> 28), hexDigitC (n >>> 24), hexDigitC (n >>> 20),
   hexDigitC (n >>> 16), hexDigitC (n >>> 12), hexDigitC (n >>> 8),
   hexDigitC (n >>> 4), hexDigitC n]

/-- `hashlib.sha256(data).hexdigest()`. -/
def sha256hex (msg : List Nat) : List Char := ((sha256words msg).map hex8).flatten

/-- Last `n` elements of a list (Python `l[-n:]` for `0 < n ≤ len`). -/
def lastN (n : Nat) (l : List α) : List α := l.drop (l.length - n)

/-! ### Filesystem model and the handler's operations

A filesystem is a partial map from paths to entries.  An entry's
`content` is `none` when the file exists (stat succeeds) but cannot be
read (permission denied, transient lock); a missing entry models a
missing file.  Python exceptions are modelled by `none` results. -/

/-- One file: its readable bytes (or `none` if unreadable) and its
modification time in epoch seconds. -/
structure FileEntry where
  content : Option (List Nat)
  mtime : Int

/-- A filesystem state. -/
def FS : Type := List Char → Option FileEntry

/-- A watchdog `FileSystemEvent`: the affected path and whether it is a
directory. -/
structure FileSystemEvent where
  src_path : List Char
  is_directory : Bool

/-- `RenamerHandler.checksum_partial`: read the whole file, hash it with
SHA-256, return the last 8 hex characters of the hexdigest; `none` when
`open`/`read` raises. -/
def checksum_partial (fs : FS) (path : List Char) : Option (List Char) :=
  match fs path with
  | none => none
  | some fd =>
    match fd.content with
    | none => none
    | some data => some (lastN 8 (sha256hex data))

/-- `RenamerHandler.file_datetime` as called on a path: `stat` the file
(`none` when it does not exist) and format its mtime. -/
def file_datetime_path (fs : FS) (path : List Char) : Option (List Char) :=
  match fs path with
  | none => none
  | some fd => file_datetime fd.mtime

/-- The class constant `RenamerHandler.CONSTRUCT_FN`. -/
def CONSTRUCT_FN : String := "Screenshot-{datetime}-{checksum}{ext}"

/-- Field lookup used when formatting `CONSTRUCT_FN`. -/
def fmtVals (dt ck ext : List Char) (field : List Char) : List Char :=
  if field = "datetime".data then dt
  else if field = "checksum".data then ck
  else if field = "ext".data then ext
  else []

/-- One step of `str.format` rendering: copy literal characters, and
replace each brace-delimited field by its value.  The fuel is the
template length, enough for the whole template. -/
def fmtGo (f : List Char → List Char) : Nat → List Char → List Char
  | 0, _ => []
  | _ + 1, [] => []
  | fuel + 1, c :: rest =>
    if c = '\x7b' then
      f (rest.takeWhile (fun x => x != '\x7d')) ++
        fmtGo f fuel ((rest.dropWhile (fun x => x != '\x7d')).drop 1)
    else c :: fmtGo f fuel rest

/-- Python `str.format` with named fields (no format specs, as in
`CONSTRUCT_FN`). -/
def formatRender (f : List Char → List Char) (tmpl : List Char) : List Char :=
  fmtGo f tmpl.length tmpl

/-- `RenamerHandler.new_filename`: timestamp part, then checksum part,
then the extension of the original basename, rendered through
`CONSTRUCT_FN`.  `none` when one of the reads raises. -/
def new_filename (fs : FS) (path : List Char) : Option (List Char) :=
  match file_datetime_path fs path with
  | none => none
  | some file_date =>
    match checksum_partial fs path with
    | none => none
    | some file_cksum =>
      let ext := splitextExt (basename path)
      some (formatRender (fmtVals file_date file_cksum ext) CONSTRUCT_FN.data)

/-- `RenamerHandler.rename`: refuse when the destination exists; move the
source when it still exists; report `True` otherwise (the source-vanished
case performs no move but still returns `True`). -/
def rename (fs : FS) (path new_filename : List Char) : FS × Bool :=
  let new_path := joinPath (dirname path) new_filename
  if (fs new_path).isSome then (fs, false)
  else if (fs path).isSome then
    (fun p => if p = new_path then fs path else if p = path then none
      else fs p, true)
  else (fs, true)

/-- The class constant `RenamerHandler.VALID_EXTS`. -/
def VALID_EXTS : List (List Char) := [".png".data, ".jpg".data, ".jpeg".data]

/-- `RenamerHandler.handle_event`: ignore directories, foreign
extensions, and already-canonical names; otherwise compute the new name
(after the one-second grace sleep, which has no observable effect in this
model) and attempt the rename.  `none` models an uncaught exception. -/
def handle_event (fs : FS) (event : FileSystemEvent) : Option (FS × Bool) :=
  let path := event.src_path
  if event.is_directory then some (fs, false)
  else
    let file_ext := pyExtNorm (splitextExt (basename path))
    if file_ext ∉ VALID_EXTS then some (fs, false)
    else if needs_rename path = false then some (fs, false)
    else (new_filename fs path).map (fun new_fn => rename fs path new_fn)


/-! ### Concrete fixtures used by the witness theorems -/

/-- A filesystem with no files at all. -/
def emptyFS : FS := fun _ => none

/-- One unrenamed screenshot (the spec's end-to-end example file name),
empty content, mtime 2023-12-01 08:30:00 UTC. -/
def fsC2 : FS := fun p =>
  if p = "d/IMG_0001.PNG".data then some ⟨some [], 1701419400⟩ else none

/-- One readable empty file. -/
def fsC3 : FS := fun p =>
  if p = "d/shot.png".data then some ⟨some [], 0⟩ else none

/-- A filesystem where the rename destination is already occupied. -/
def fsC4 : FS := fun p =>
  if p = "d/new.png".data then some ⟨some [], 0⟩ else none

/-- One canonically named file, empty content, mtime
2024-03-05 14:07:09 UTC. -/
def fsC6 : FS := fun p =>
  if p = "d/Screenshot-20240101-123456-deadbeef.png".data then
    some ⟨some [], 1709647629⟩ else none

/-- One file that exists but cannot be read. -/
def fsC9 : FS := fun p =>
  if p = "d/locked.png".data then some ⟨none, 0⟩ else none

/-! ### Regex-engine lemmas -/

theorem reMatch_nil (cs : List Char) : reMatch [] cs = true := by
  cases cs <;> rfl

theorem reMatch_lits (l : List Char) (ts : List RTok) (cs : List Char) :
    reMatch (l.map RTok.lit ++ ts) cs = true ↔
      ∃ cs', cs = l ++ cs' ∧ reMatch ts cs' = true := by
  induction l generalizing cs with
  | nil => simp
  | cons c l ih =>
    cases cs with
    | nil =>
      simp only [List.map_cons, List.cons_append, reMatch]
      constructor
      · intro h; simp at h
      · rintro ⟨cs', h, -⟩; simp at h
    | cons x xs =>
      simp only [List.map_cons, List.cons_append, reMatch, List.append_eq,
        Bool.and_eq_true, beq_iff_eq, ih]
      constructor
      · rintro ⟨hx, cs', hxs, h⟩
        exact ⟨cs', by rw [hx, hxs], h⟩
      · rintro ⟨cs', h, hm⟩
        injection h with h1 h2
        exact ⟨h1, cs', h2, hm⟩

theorem reMatch_clsRep (n : Nat) (p : Char → Bool) (ts : List RTok)
    (cs : List Char) :
    reMatch (List.replicate n (RTok.cls p) ++ ts) cs = true ↔
      ∃ u cs', cs = u ++ cs' ∧ u.length = n ∧ (∀ c ∈ u, p c = true) ∧
        reMatch ts cs' = true := by
  induction n generalizing cs with
  | zero =>
    simp only [List.replicate_zero, List.nil_append]
    constructor
    · intro h; exact ⟨[], cs, rfl, rfl, by simp, h⟩
    · rintro ⟨u, cs', hcs, hu, -, h⟩
      have hu' : u = [] := List.length_eq_zero.mp hu
      subst hu'
      simp only [List.nil_append] at hcs
      subst hcs
      exact h
  | succ n ih =>
    cases cs with
    | nil =>
      simp only [List.replicate_succ, List.cons_append, reMatch]
      constructor
      · intro h; simp at h
      · rintro ⟨u, cs', hcs, hu, -, -⟩
        cases u with
        | nil => simp at hu
        | cons a u' => simp at hcs
    | cons x xs =>
      simp only [List.replicate_succ, List.cons_append, reMatch,
        List.append_eq, Bool.and_eq_true, ih]
      constructor
      · rintro ⟨hp, u, cs', hxs, hu, hall, h⟩
        refine ⟨x :: u, cs', by simp [hxs], by simp [hu],
          ?_, h⟩
        intro c hc
        rcases List.mem_cons.mp hc with rfl | hc
        · exact hp
        · exact hall c hc
      · rintro ⟨u, cs', hcs, hu, hall, hm⟩
        cases u with
        | nil => simp at hu
        | cons a u' =>
          injection hcs with h1 h2
          subst h1
          exact ⟨hall x (by simp), u', cs', h2, by simpa using hu,
            fun c hc => hall c (by simp [hc]), hm⟩

theorem reMatch_starEnd (p : Char → Bool) (cs : List Char) :
    reMatch [RTok.starCls p] cs = true := by
  cases cs with
  | nil => rfl
  | cons x xs => simp [reMatch, starLoop, reMatch_nil]

/-- The regex `VALID_FN` matches (in the sense of `re.match`) exactly the
canonically-shaped names. -/
theorem reMatch_VALID_FN (cs : List Char) :
    reMatch VALID_FN cs = true ↔ canonicalPattern cs := by
  unfold VALID_FN canonicalPattern litToks
  rw [reMatch_lits]
  constructor
  · rintro ⟨cs1, rfl, h1⟩
    rw [reMatch_clsRep] at h1
    obtain ⟨d, cs2, rfl, hd, hdall, h2⟩ := h1
    rw [reMatch_lits] at h2
    obtain ⟨cs3, rfl, h3⟩ := h2
    rw [reMatch_clsRep] at h3
    obtain ⟨t, cs4, rfl, ht, htall, h4⟩ := h3
    rw [reMatch_lits] at h4
    obtain ⟨cs5, rfl, h5⟩ := h4
    rw [reMatch_clsRep] at h5
    obtain ⟨h8, cs6, rfl, hh, hhall, h6⟩ := h5
    rw [reMatch_lits] at h6
    obtain ⟨cs7, rfl, -⟩ := h6
    exact ⟨d, t, h8, cs7, rfl, hd, hdall, ht, htall, hh, hhall⟩
  · rintro ⟨d, t, h8, ext, rfl, hd, hdall, ht, htall, hh, hhall⟩
    refine ⟨_, rfl, ?_⟩
    rw [reMatch_clsRep]
    refine ⟨d, _, rfl, hd, hdall, ?_⟩
    rw [reMatch_lits]
    refine ⟨_, rfl, ?_⟩
    rw [reMatch_clsRep]
    refine ⟨t, _, rfl, ht, htall, ?_⟩
    rw [reMatch_lits]
    refine ⟨_, rfl, ?_⟩
    rw [reMatch_clsRep]
    refine ⟨h8, _, rfl, hh, hhall, ?_⟩
    rw [reMatch_lits]
    exact ⟨_, rfl, reMatch_starEnd _ _⟩

/-! ### Validation of the SHA-256 embedding on FIPS 180-4 test vectors -/

theorem sha256hex_empty :
    sha256hex [] =
      "e3b0c44298fc1c149afbf4c8996fb92427ae41e4649b934ca495991b7852b855".data :=
  rfl

theorem sha256hex_abc :
    sha256hex ("abc".data.map Char.toNat) =
      "ba7816bf8f01cfea414140de5dae2223b00361a396177a9cb410ff61f20015ad".data :=
  rfl

/-! ### Digit and hex character lemmas -/

theorem decDigit_digit (n : Nat) : isDigitC (decDigit n) = true := by
  have h : n % 10 < 10 := Nat.mod_lt _ (by omega)
  unfold decDigit
  obtain ⟨r, hrlt, hreq⟩ : ∃ r, r < 10 ∧ n % 10 = r := ⟨n % 10, h, rfl⟩
  rw [hreq]
  interval_cases r <;> decide

theorem hexDigitC_hex (n : Nat) : isHexC (hexDigitC n) = true := by
  have h : n % 16 < 16 := Nat.mod_lt _ (by omega)
  unfold hexDigitC
  obtain ⟨r, hrlt, hreq⟩ : ∃ r, r < 16 ∧ n % 16 = r := ⟨n % 16, h, rfl⟩
  rw [hreq]
  interval_cases r <;> decide

theorem isDigitC_ne_slash {c : Char} (h : isDigitC c = true) : c ≠ '/' := by
  intro he; rw [he] at h; exact absurd h (by decide)

theorem isHexC_ne_slash {c : Char} (h : isHexC c = true) : c ≠ '/' := by
  intro he; rw [he] at h; exact absurd h (by decide)

/-! ### Lemmas about `lastN` -/

theorem lastN_length {α : Type} (n : Nat) (l : List α) (h : n ≤ l.length) :
    (lastN n l).length = n := by
  simp [lastN]; omega

theorem lastN_suffix {α : Type} (n : Nat) (l : List α) : lastN n l <:+ l :=
  ⟨l.take (l.length - n), List.take_append_drop _ _⟩

theorem mem_lastN {α : Type} {c : α} {n : Nat} {l : List α}
    (h : c ∈ lastN n l) : c ∈ l :=
  (lastN_suffix n l).subset h

/-! ### Shape of the hexdigest -/

theorem processBlock_length {hs : List Nat} (block : List Nat)
    (h : hs.length = 8) : (processBlock hs block).length = 8 := by
  simp [processBlock, List.length_zipWith, h]

theorem foldl_processBlock_length :
    ∀ (bs : List (List Nat)) (hs : List Nat), hs.length = 8 →
      (bs.foldl processBlock hs).length = 8 := by
  intro bs
  induction bs with
  | nil => intro hs h; simpa using h
  | cons b bs ih =>
    intro hs h
    rw [List.foldl_cons]
    exact ih _ (processBlock_length b h)

theorem sha256words_length (msg : List Nat) : (sha256words msg).length = 8 :=
  foldl_processBlock_length _ _ rfl

theorem flatten_hex8_length (ws : List Nat) :
    ((ws.map hex8).flatten).length = 8 * ws.length := by
  induction ws with
  | nil => simp
  | cons w ws ih =>
    simp only [List.map_cons, List.flatten_cons, List.length_append, ih,
      List.length_cons]
    simp [hex8]
    ring

theorem sha256hex_length (msg : List Nat) : (sha256hex msg).length = 64 := by
  unfold sha256hex
  rw [flatten_hex8_length, sha256words_length]

theorem mem_hex8 {c : Char} {n : Nat} (h : c ∈ hex8 n) : isHexC c = true := by
  simp [hex8] at h
  rcases h with rfl | rfl | rfl | rfl | rfl | rfl | rfl | rfl <;>
    exact hexDigitC_hex _

theorem sha256hex_hex (msg : List Nat) :
    ∀ c ∈ sha256hex msg, isHexC c = true := by
  intro c hc
  unfold sha256hex at hc
  rw [List.mem_flatten] at hc
  obtain ⟨l, hl, hcl⟩ := hc
  rw [List.mem_map] at hl
  obtain ⟨w, -, rfl⟩ := hl
  exact mem_hex8 hcl

/-! ### Shape of the formatted timestamp -/

theorem file_datetime_shape {m : Int} {s : List Char}
    (h : file_datetime m = some s) :
    ∃ d8 t6, s = d8 ++ '-' :: t6 ∧
      d8.length = 8 ∧ (∀ c ∈ d8, isDigitC c = true) ∧
      t6.length = 6 ∧ (∀ c ∈ t6, isDigitC c = true) := by
  simp only [file_datetime] at h
  split_ifs at h
  injection h with h'
  subst h'
  refine ⟨_, _, rfl, by simp [pad4, pad2], ?_, by simp [pad2], ?_⟩
  · intro c hc
    simp [pad4, pad2] at hc
    rcases hc with rfl | rfl | rfl | rfl | rfl | rfl | rfl | rfl <;>
      exact decDigit_digit _
  · intro c hc
    simp [pad2] at hc
    rcases hc with rfl | rfl | rfl | rfl | rfl | rfl <;> exact decDigit_digit _

/-! ### Lemmas about `basename` and `splitextExt` -/

theorem mem_takeWhile_pred {α : Type} {p : α → Bool} :
    ∀ {l : List α} {a : α}, a ∈ l.takeWhile p → p a = true := by
  intro l
  induction l with
  | nil => intro a h; simp [List.takeWhile_nil] at h
  | cons x xs ih =>
    intro a h
    rw [List.takeWhile_cons] at h
    by_cases hx : p x = true
    · rw [if_pos hx] at h
      rcases List.mem_cons.mp h with rfl | h2
      · exact hx
      · exact ih h2
    · rw [if_neg hx] at h
      simp at h

theorem takeWhile_all {α : Type} {p : α → Bool} :
    ∀ {l : List α}, (∀ a ∈ l, p a = true) → l.takeWhile p = l := by
  intro l
  induction l with
  | nil => intro _; rfl
  | cons x xs ih =>
    intro h
    rw [List.takeWhile_cons, if_pos (h x (by simp)),
      ih (fun a ha => h a (by simp [ha]))]

theorem basename_no_slash {p : List Char} : ∀ c ∈ basename p, c ≠ '/' := by
  intro c hc
  unfold basename at hc
  rw [List.mem_reverse] at hc
  simpa using mem_takeWhile_pred hc

theorem basename_id {p : List Char} (h : ∀ c ∈ p, c ≠ '/') :
    basename p = p := by
  have h2 : ∀ a ∈ p.reverse, (fun c => c != '/') a = true := by
    intro a ha
    rw [List.mem_reverse] at ha
    simpa using h a ha
  unfold basename
  rw [takeWhile_all h2, List.reverse_reverse]

theorem lastDotIdx_get :
    ∀ {l : List Char} {i : Nat}, lastDotIdx l = some i →
      i < l.length ∧ l[i]? = some '.' := by
  intro l
  induction l with
  | nil => intro i h; simp [lastDotIdx] at h
  | cons c cs ih =>
    intro i h
    unfold lastDotIdx at h
    split at h
    · injection h with h'
      subst h'
      rename_i j hrec
      obtain ⟨h1, h2⟩ := ih hrec
      refine ⟨by simpa using Nat.succ_lt_succ h1, ?_⟩
      rw [List.getElem?_cons_succ]
      exact h2
    · by_cases hc : c = '.'
      · rw [if_pos hc] at h
        injection h with h'
        subst h'
        exact ⟨by simp, by simp [hc]⟩
      · rw [if_neg hc] at h
        exact absurd h (by simp)

theorem lastDotIdx_isSome :
    ∀ {l : List Char}, ('.' : Char) ∈ l → (lastDotIdx l).isSome = true := by
  intro l
  induction l with
  | nil => intro h; simp at h
  | cons c cs ih =>
    intro h
    unfold lastDotIdx
    split
    · simp
    · rename_i hrec
      rcases List.mem_cons.mp h with rfl | h2
      · simp
      · have := ih h2
        rw [hrec] at this
        simp at this

theorem drop_of_getElem {α : Type} :
    ∀ {l : List α} {i : Nat} {a : α}, l[i]? = some a →
      l.drop i = a :: l.drop (i + 1) := by
  intro l
  induction l with
  | nil => intro i a h; simp at h
  | cons x xs ih =>
    intro i a h
    cases i with
    | zero =>
      simp only [List.getElem?_cons_zero, Option.some.injEq] at h
      subst h
      simp
    | succ i =>
      rw [List.getElem?_cons_succ] at h
      rw [List.drop_succ_cons, List.drop_succ_cons]
      exact ih h

theorem splitextExt_eq_of_idx {name : List Char} {i : Nat}
    (heq : lastDotIdx name = some i) :
    splitextExt name =
      if (name.take i).any (fun c => c != '.') then name.drop i else [] := by
  unfold splitextExt
  rw [heq]
  rfl

theorem splitextExt_eq_of_none {name : List Char}
    (heq : lastDotIdx name = none) : splitextExt name = [] := by
  unfold splitextExt
  rw [heq]
  rfl

theorem splitextExt_cases (name : List Char) :
    splitextExt name = [] ∨
      ∃ r, splitextExt name = '.' :: r ∧ splitextExt name <:+ name := by
  rcases heq : lastDotIdx name with _ | i
  · left; exact splitextExt_eq_of_none heq
  · have hbase := splitextExt_eq_of_idx heq
    by_cases hany : ((name.take i).any fun c => c != '.') = true
    · right
      obtain ⟨-, h2⟩ := lastDotIdx_get heq
      have hval : splitextExt name = name.drop i := by
        rw [hbase, if_pos hany]
      refine ⟨name.drop (i + 1), ?_, ?_⟩
      · rw [hval]; exact drop_of_getElem h2
      · rw [hval]; exact ⟨name.take i, List.take_append_drop _ _⟩
    · left; rw [hbase, if_neg hany]

theorem splitextExt_dotted {name : List Char}
    (h0 : name[0]? = some 'S') (hdot : ('.' : Char) ∈ name) :
    ∃ r, splitextExt name = '.' :: r ∧ splitextExt name <:+ name := by
  have hsome := lastDotIdx_isSome hdot
  rcases heq : lastDotIdx name with _ | i
  · rw [heq] at hsome; simp at hsome
  · have hi := lastDotIdx_get heq
    have hne : i ≠ 0 := by
      intro h0'
      subst h0'
      have h2 := hi.2
      rw [h0] at h2
      exact absurd h2 (by decide)
    have hany : ((name.take i).any fun c => c != '.') = true := by
      cases name with
      | nil => simp at h0
      | cons x xs =>
        have hx : x = 'S' := by simpa using h0
        subst hx
        cases i with
        | zero => exact absurd rfl hne
        | succ i => simp
    have hval : splitextExt name = name.drop i := by
      rw [splitextExt_eq_of_idx heq, if_pos hany]
    refine ⟨name.drop (i + 1), ?_, ?_⟩
    · rw [hval]; exact drop_of_getElem hi.2
    · rw [hval]; exact ⟨name.take i, List.take_append_drop _ _⟩

/-! ### Rendering of `CONSTRUCT_FN` and the shape of `new_filename` -/

theorem formatRender_CONSTRUCT (dt ck ext : List Char) :
    formatRender (fmtVals dt ck ext) CONSTRUCT_FN.data =
      "Screenshot-".data ++ (dt ++ '-' :: (ck ++ ext)) := by
  have h : formatRender (fmtVals dt ck ext) CONSTRUCT_FN.data =
      "Screenshot-".data ++ (dt ++ '-' :: (ck ++ (ext ++ []))) := rfl
  rw [h, List.append_nil]

theorem new_filename_eq {fs : FS} {path nm : List Char}
    (h : new_filename fs path = some nm) :
    ∃ ts ck, file_datetime_path fs path = some ts ∧
      checksum_partial fs path = some ck ∧
      nm = "Screenshot-".data ++
        (ts ++ '-' :: (ck ++ splitextExt (basename path))) := by
  unfold new_filename at h
  rcases hdt : file_datetime_path fs path with _ | ts
  · rw [hdt] at h; exact absurd h (by simp)
  · rw [hdt] at h
    rcases hck : checksum_partial fs path with _ | ck
    · rw [hck] at h; exact absurd h (by simp)
    · rw [hck] at h
      simp only [Option.some.injEq] at h
      exact ⟨ts, ck, rfl, rfl, by rw [← h, formatRender_CONSTRUCT]⟩

/-! ### Canonical names and `needs_rename` -/

theorem screenshot_prefix_no_slash : ∀ c ∈ "Screenshot-".data, c ≠ '/' := by
  decide

theorem needs_rename_canonical {nm : List Char} (h : canonicalPattern nm)
    (hns : ∀ c ∈ nm, c ≠ '/') : needs_rename nm = false := by
  unfold needs_rename
  rw [basename_id hns, (reMatch_VALID_FN nm).mpr h]
  rfl

/-! ### The claims -/

/-- C1: for every path, `needs_rename` returns true if and only if the
base name of the path does not match the canonical pattern
(`Screenshot-`, 8 digits, `-`, 6 digits, `-`, 8 hex digits, a dot, any
extension). -/
theorem c1_needs_rename_iff (path : List Char) :
    needs_rename path = true ↔ ¬ canonicalPattern (basename path) := by
  rw [← reMatch_VALID_FN]
  unfold needs_rename
  cases reMatch VALID_FN (basename path) <;> simp

/-- C3: for every readable file, `checksum_partial` returns exactly the
last 8 hex characters of the 64-character hex-encoded SHA-256 digest of
the entire file content. -/
theorem c3_checksum_last8 (fs : FS) (path : List Char) (fd : FileEntry)
    (data : List Nat) (h1 : fs path = some fd) (h2 : fd.content = some data) :
    checksum_partial fs path = some (lastN 8 (sha256hex data)) ∧
    (sha256hex data).length = 64 ∧
    (∀ c ∈ sha256hex data, isHexC c = true) ∧
    lastN 8 (sha256hex data) <:+ sha256hex data ∧
    (lastN 8 (sha256hex data)).length = 8 := by
  refine ⟨?_, sha256hex_length data, sha256hex_hex data, lastN_suffix _ _, ?_⟩
  · simp [ checksum_partial, h1, h2]
  · exact lastN_length _ _ (by simp [sha256hex_length])

/-- Witness for C3 at a concrete one-file filesystem with empty content. -/
theorem c3_witness :
    checksum_partial fsC3 ("d/shot.png").data =
      some (lastN 8 (sha256hex [])) ∧
    (sha256hex []).length = 64 ∧
    (∀ c ∈ sha256hex [], isHexC c = true) ∧
    lastN 8 (sha256hex []) <:+ sha256hex [] ∧
    (lastN 8 (sha256hex [])).length = 8 :=
  c3_checksum_last8 fsC3 ("d/shot.png").data ⟨some [], 0⟩ [] rfl rfl

/-- C4: when a file already exists at the destination path, `rename`
returns failure and leaves the filesystem (both source and destination)
unchanged. -/
theorem c4_rename_refuses (fs : FS) (path nfn : List Char)
    (h : (fs (joinPath (dirname path) nfn)).isSome = true) :
    rename fs path nfn = (fs, false) := by
  simp [rename, h]

/-- Witness for C4: the destination `d/new.png` exists. -/
theorem c4_witness :
    rename fsC4 ("d/old.png").data ("new.png").data = (fsC4, false) :=
  c4_rename_refuses fsC4 ("d/old.png").data ("new.png").data rfl

/-- C5 counterexample: with neither source nor destination present,
`rename` does not resolve to the Skipped outcome (return `false`); it
returns `true`, reporting success. -/
theorem c5_counterexample :
    ¬ (rename emptyFS ("d/a.png").data ("b.png").data).2 = false := by
  decide

/-- C5 amended: when the source no longer exists (and the destination is
free), the move is skipped without a fatal error and the filesystem is
unchanged, but `rename` reports success (`true`) rather than a Skipped
outcome. -/
theorem c5_amended_skip_reports_success (fs : FS) (path nfn : List Char)
    (h1 : fs path = none)
    (h2 : fs (joinPath (dirname path) nfn) = none) :
    rename fs path nfn = (fs, true) := by
  simp [rename, h1, h2]

/-- Witness for the amended C5 on the empty filesystem. -/
theorem c5_witness :
    rename emptyFS ("d/a.png").data ("b.png").data = (emptyFS, true) :=
  c5_amended_skip_reports_success emptyFS ("d/a.png").data ("b.png").data
    rfl rfl

/-- C7: `file_datetime` converts the modification time to UTC and formats
it as `YYYYMMDD-HHMMSS`; in particular 2024-03-05T14:07:09Z (epoch
1709647629) yields `20240305-140709`, and the epoch itself yields
`19700101-000000`. -/
theorem c7_timestamp_format :
    file_datetime 1709647629 = some ("20240305-140709").data ∧
    file_datetime 0 = some ("19700101-000000").data :=
  ⟨rfl, rfl⟩

/-- C9: when the file cannot be read (missing entry or unreadable
content), the checksum computation fails and the failure propagates
through `new_filename` to the caller instead of being swallowed. -/
theorem c9_read_error_propagates (fs : FS) (path : List Char)
    (h : (fs path).bind FileEntry.content = none) :
    checksum_partial fs path = none ∧ new_filename fs path = none := by
  cases hfs : fs path with
  | none =>
    refine ⟨by simp [ checksum_partial, hfs], ?_⟩
    simp [new_filename, file_datetime_path, hfs]
  | some fd =>
    rw [hfs] at h
    simp only [Option.some_bind] at h
    constructor
    · simp [ checksum_partial, hfs, h]
    · rcases hdt : file_datetime fd.mtime with _ | ts
      · simp [new_filename, file_datetime_path, hfs, hdt]
      · simp [new_filename, file_datetime_path, checksum_partial, hfs, hdt, h]

/-- Witness for C9 at a file that exists but is unreadable. -/
theorem c9_witness :
    checksum_partial fsC9 ("d/locked.png").data = none ∧
    new_filename fsC9 ("d/locked.png").data = none :=
  c9_read_error_propagates fsC9 ("d/locked.png").data rfl

/-- C10 (implicit): the canonical-name check is anchored only at the
start of the base name, so any base name beginning with the canonical
prefix is accepted regardless of what follows the dot. -/
theorem c10_match_start_anchored (path d t h rest : List Char)
    (hb : basename path = "Screenshot-".data ++
      (d ++ ("-".data ++ (t ++ ("-".data ++ (h ++ (".".data ++ rest)))))))
    (hd : d.length = 8) (hdall : ∀ c ∈ d, isDigitC c = true)
    (ht : t.length = 6) (htall : ∀ c ∈ t, isDigitC c = true)
    (hh : h.length = 8) (hhall : ∀ c ∈ h, isHexC c = true) :
    needs_rename path = false := by
  unfold needs_rename
  rw [(reMatch_VALID_FN _).mpr
    ⟨d, t, h, rest, hb, hd, hdall, ht, htall, hh, hhall⟩]
  rfl

/-- Witness for C10: `Screenshot-20240101-123456-deadbeef.png.partial`
is treated as already canonical. -/
theorem c10_witness :
    needs_rename ("Screenshot-20240101-123456-deadbeef.png.partial").data
      = false :=
  c10_match_start_anchored
    ("Screenshot-20240101-123456-deadbeef.png.partial").data
    ("20240101").data ("123456").data ("deadbeef").data ("png.partial").data
    (by decide) (by decide) (by decide) (by decide) (by decide) (by decide)
    (by decide)

/-- C2: `new_filename` composes `Screenshot-`, the timestamp part, `-`,
the checksum part, and the extension of the original basename taken
verbatim (when nonempty it begins with its dot and is a verbatim suffix
of the original name, preserving case). -/
theorem c2_new_filename_composes (fs : FS) (path nm : List Char)
    (h : new_filename fs path = some nm) :
    ∃ ts ck, file_datetime_path fs path = some ts ∧
      checksum_partial fs path = some ck ∧
      nm = "Screenshot-".data ++
        (ts ++ '-' :: (ck ++ splitextExt (basename path))) ∧
      (splitextExt (basename path) = [] ∨
        ∃ r, splitextExt (basename path) = '.' :: r ∧
          splitextExt (basename path) <:+ basename path) := by
  obtain ⟨ts, ck, h1, h2, h3⟩ := new_filename_eq h
  exact ⟨ts, ck, h1, h2, h3, splitextExt_cases _⟩

/-- Witness for C2 at the spec's end-to-end example file. -/
theorem c2_witness :
    ∃ ts ck,
      file_datetime_path fsC2 ("d/IMG_0001.PNG").data = some ts ∧
      checksum_partial fsC2 ("d/IMG_0001.PNG").data = some ck ∧
      ("Screenshot-20231201-083000-7852b855.PNG").data =
        "Screenshot-".data ++
          (ts ++ '-' ::
            (ck ++ splitextExt (basename ("d/IMG_0001.PNG").data))) ∧
      (splitextExt (basename ("d/IMG_0001.PNG").data) = [] ∨
        ∃ r, splitextExt (basename ("d/IMG_0001.PNG").data) = '.' :: r ∧
          splitextExt (basename ("d/IMG_0001.PNG").data) <:+
            basename ("d/IMG_0001.PNG").data) :=
  c2_new_filename_composes fsC2 ("d/IMG_0001.PNG").data
    ("Screenshot-20231201-083000-7852b855.PNG").data (by decide)

/-- C8: the dispatch handler produces no rename action for directory
events or for files whose (case-insensitively compared) extension is not
one of `.png`, `.jpg`, `.jpeg`: it returns without renaming and leaves
the filesystem unchanged. -/
theorem c8_event_filter (fs : FS) (ev : FileSystemEvent)
    (h : ev.is_directory = true ∨
      pyExtNorm (splitextExt (basename ev.src_path)) ∉ VALID_EXTS) :
    handle_event fs ev = some (fs, false) := by
  rcases h with h | h
  · simp [handle_event, h]
  · by_cases hd : ev.is_directory = true
    · simp [handle_event, hd]
    · have hd' : ev.is_directory = false := by simpa using hd
      simp [handle_event, hd', h]

/-- Witness for C8: a created directory and a created `.gif` file both
produce no rename action. -/
theorem c8_witness :
    handle_event emptyFS ⟨("watched/sub").data, true⟩
      = some (emptyFS, false) ∧
    handle_event emptyFS ⟨("d/anim.gif").data, false⟩
      = some (emptyFS, false) :=
  ⟨c8_event_filter emptyFS _ (Or.inl rfl),
   c8_event_filter emptyFS _ (Or.inr (by decide))⟩

/-- C6: round-trip idempotence: if a file's base name is already
canonical (`needs_rename` is false) and `new_filename` produces a name,
then `needs_rename` on that produced name is false as well, so no
further rename is attempted. -/
theorem c6_roundtrip_idempotent (fs : FS) (path nm : List Char)
    (h1 : needs_rename path = false) (h2 : new_filename fs path = some nm) :
    needs_rename nm = false := by
  have hmatch : reMatch VALID_FN (basename path) = true := by
    have h1' := h1
    unfold needs_rename at h1'
    simpa using h1'
  obtain ⟨d, t, h8, ext0, heq, -, -, -, -, -, -⟩ :=
    (reMatch_VALID_FN _).mp hmatch
  obtain ⟨ts, ck, hdt, hck, hnm⟩ := new_filename_eq h2
  have hfd : ∃ fd, fs path = some fd ∧ file_datetime fd.mtime = some ts := by
    unfold file_datetime_path at hdt
    rcases hfs : fs path with _ | fd
    · rw [hfs] at hdt; exact absurd hdt (by simp)
    · rw [hfs] at hdt; exact ⟨fd, rfl, hdt⟩
  obtain ⟨fd, hfs, hts⟩ := hfd
  obtain ⟨d8, t6, htseq, hd8len, hd8dig, ht6len, ht6dig⟩ :=
    file_datetime_shape hts
  have hckshape : ck.length = 8 ∧ ∀ c ∈ ck, isHexC c = true := by
    rcases hcont : fd.content with _ | data
    · simp only [ checksum_partial, hfs, hcont] at hck
      exact absurd hck (by simp)
    · simp only [ checksum_partial, hfs, hcont, Option.some.injEq] at hck
      subst hck
      exact ⟨lastN_length _ _ (by simp [sha256hex_length]),
        fun c hc => sha256hex_hex data c (mem_lastN hc)⟩
  have h0 : (basename path)[0]? = some 'S' := by rw [heq]; rfl
  have hdotmem : ('.' : Char) ∈ basename path := by
    rw [heq]
    exact List.mem_append_right _ (List.mem_append_right _
      (List.mem_append_right _ (List.mem_append_right _
        (List.mem_append_right _ (List.mem_append_right _
          (List.mem_append_left _ (by decide)))))))
  obtain ⟨r, hextEq, hextSuf⟩ := splitextExt_dotted h0 hdotmem
  have hdash : "-".data = ['-'] := rfl
  have hdot : ".".data = ['.'] := rfl
  have hcanon : canonicalPattern nm := by
    refine ⟨d8, t6, ck, r, ?_, hd8len, hd8dig, ht6len, ht6dig,
      hckshape.1, hckshape.2⟩
    rw [hnm, htseq, hextEq]
    simp [hdash, hdot, List.append_assoc]
  have hns : ∀ c ∈ nm, c ≠ '/' := by
    intro c hc
    rw [hnm] at hc
    rcases List.mem_append.mp hc with hc | hc
    · exact screenshot_prefix_no_slash c hc
    · rcases List.mem_append.mp hc with hc | hc
      · rw [htseq] at hc
        rcases List.mem_append.mp hc with hc | hc
        · exact isDigitC_ne_slash (hd8dig c hc)
        · rcases List.mem_cons.mp hc with rfl | hc
          · decide
          · exact isDigitC_ne_slash (ht6dig c hc)
      · rcases List.mem_cons.mp hc with rfl | hc
        · decide
        · rcases List.mem_append.mp hc with hc | hc
          · exact isHexC_ne_slash (hckshape.2 c hc)
          · exact basename_no_slash c (hextSuf.subset hc)
  exact needs_rename_canonical hcanon hns

/-- Witness for C6: re-deriving a name for an already canonical file
yields a name that again passes the canonical check. -/
theorem c6_witness :
    needs_rename ("Screenshot-20240305-140709-7852b855.png").data = false :=
  c6_roundtrip_idempotent fsC6
    ("d/Screenshot-20240101-123456-deadbeef.png").data
    ("Screenshot-20240305-140709-7852b855.png").data (by decide) (by decide)
